import Mathlib

/-!
Shallow embedding of `packages/qwik/src/core/v2/shared/shared-serialization.ts`.

JavaScript strings are modelled as lists of character codes (`JStr`), object
identity as natural-number ids, and the identity-keyed `Map`s of the source as
association lists keyed by modelled values.  Machine integers stay exact:
`Number.MIN_SAFE_INTEGER` is the literal integer the source compares against,
and the bitwise complement `~x` used for rejected-promise ids is `-(x+1)`.
External collaborators that live outside this file's source (DomContainer,
`vnode_*`, the reactive-store machinery of `state/store`/`state/common`) are
modelled from their contracts in the specification, as noted at each use.
-/

namespace SharedSerialization

/-- JavaScript string modelled as the list of its UTF-16 char codes. -/
abbrev JStr := List Nat

/-- `Number.MIN_SAFE_INTEGER`, the "seen once, not yet rooted" sentinel. -/
def minSafeInteger : Int := -9007199254740991

/-- JavaScript `~x` (bitwise NOT on integers): `-(x + 1)`. -/
def jsBitNot (x : Int) : Int := -(x + 1)

/-- Lookup in an association list (JS `Map.get` keyed by identity/value). -/
def assocGet {α β : Type} [DecidableEq α] : List (α × β) → α → Option β
  | [], _ => none
  | (k, v) :: rest, a => if k = a then some v else assocGet rest a

/-- Update-or-append in an association list (JS `Map.set` / `Reflect.set`):
replaces the value at the first matching key, else appends. -/
def assocSet {α β : Type} [DecidableEq α] : List (α × β) → α → β → List (α × β)
  | [], a, b => [(a, b)]
  | (k, v) :: rest, a, b =>
      if k = a then (k, b) :: rest else (k, v) :: assocSet rest a b

/-- Decimal digit characters of a natural number (char codes), as produced by
JavaScript `String(n)` for a non-negative integer. -/
def natToDigits (n : Nat) : JStr :=
  if h : n < 10 then [48 + n] else natToDigits (n / 10) ++ [48 + n % 10]
termination_by n
decreasing_by exact Nat.div_lt_self (by omega) (by omega)

/-- JavaScript `String(i)` for an integer (possibly negative). -/
def intToDigits (i : Int) : JStr :=
  if i < 0 then 45 :: natToDigits (-i).toNat else natToDigits i.toNat

/-- Accumulating decimal parse of digit char codes (`parseInt` on a digit run). -/
def parseDigits (s : JStr) : Nat :=
  s.foldl (fun a c => a * 10 + (c - 48)) 0

/-- JavaScript `parseInt` restricted to the strings this format produces:
an optional leading `-` followed by decimal digits. -/
def parseIntJS (s : JStr) : Int :=
  match s with
  | 45 :: rest => -(parseDigits rest : Int)
  | _ => (parseDigits s : Int)

/-- The cursor tokenizer `restString` (shared-serialization.ts:274-293): consume
characters, tracking `[`/`]` nesting depth, until a space at depth `<= 0` (the
space is not part of the token) or the end of the input. -/
def restToken : JStr → Int → JStr
  | [], _ => []
  | c :: cs, depth =>
      let d := if c = 91 then depth + 1 else if c = 93 then depth - 1 else depth
      if d ≤ 0 ∧ c = 32 then [] else c :: restToken cs d

/-! ## Serialization context (`createSerializationContext`, lines 598-693) -/

/-- Value universe for the graph-walk side of the model.  Objects are
identified by a heap id; primitives compare by value, as JS `Map` keys do. -/
inductive WVal
  | obj (id : Nat)
  | strv (s : JStr)
  | numv (n : Int)
  | boolv (b : Bool)
  | nullv
  | undefv
deriving DecidableEq, Repr

/-- The mutable session state owned by one serialization context: the
identity-keyed `map` from value to root index (or the seen-once sentinel),
and the ordered root list `roots`. -/
structure SerCtx where
  map : List (WVal × Int)
  roots : List WVal
deriving DecidableEq, Repr

def emptyCtx : SerCtx := ⟨[], []⟩

/-- `$wasSeen$`: `map.get(obj)`. -/
def wasSeen (c : SerCtx) (v : WVal) : Option Int := assocGet c.map v

/-- `$seen$`: `map.set(obj, Number.MIN_SAFE_INTEGER)`. -/
def seen (c : SerCtx) (v : WVal) : SerCtx :=
  { c with map := assocSet c.map v minSafeInteger }

/-- `$addRoot$` (lines 618-626): if the object has no numeric id yet, or only
the seen-once sentinel, assign it `roots.length`, record it and push it onto
the root list; otherwise return the existing id. -/
def addRoot (c : SerCtx) (v : WVal) : Int × SerCtx :=
  match assocGet c.map v with
  | some id =>
      if id = minSafeInteger then
        ((c.roots.length : Int),
          ⟨assocSet c.map v (c.roots.length : Int), c.roots ++ [v]⟩)
      else (id, c)
  | none =>
      ((c.roots.length : Int),
        ⟨assocSet c.map v (c.roots.length : Int), c.roots ++ [v]⟩)

/-- `$hasRootId$` (lines 637-640): `undefined` for unseen or seen-once. -/
def hasRootId (c : SerCtx) (v : WVal) : Option Int :=
  match assocGet c.map v with
  | none => none
  | some id => if id = minSafeInteger then none else some id

/-- `$getRootId$` (lines 642-648): `if (!id || id === Number.MIN_SAFE_INTEGER)
throw`.  `!id` is JavaScript falsiness: it is true for `undefined` and also for
the number `0`, so the guard is modelled exactly as written. -/
def getRootId (c : SerCtx) (v : WVal) : Option Int :=
  match assocGet c.map v with
  | none => none
  | some id => if id = 0 ∨ id = minSafeInteger then none else some id

/-- Root-table lookup `$getObjectById$` as used on decode: resolve a
non-negative root index into the root list. -/
def rootsGet (c : SerCtx) (i : Int) : Option WVal :=
  if 0 ≤ i then c.roots.get? i.toNat else none

/-- Decidable well-formedness of a context: every non-sentinel id recorded in
the map is a valid index of `roots` pointing back at its key.  This is the
invariant the context operations maintain. -/
def ctxInv (c : SerCtx) : Bool :=
  c.map.all fun p =>
    p.2 == minSafeInteger ||
      (decide (0 ≤ p.2) && decide (p.2.toNat < c.roots.length) &&
        (c.roots.get? p.2.toNat == some p.1))

/-! ## Graph walker (`breakCircularDependenciesAndResolvePromises`, 695-818) -/

/-- Heap record for a walked object.  `storeO` is a reactive-store proxy
(modelled from the spec: `unwrapProxy` returns its distinct target and its
subscription manager lists subscriber tuples whose host/signal entries the
walker pushes); `primLike` covers the URL/Date/RegExp/Error/Uint8Array/
URLSearchParams/FormData leaf branch; `skipSer` is `fastSkipSerialize`;
`unknownK` is any compound kind the walker does not know (fatal). -/
inductive WObj
  | literal (props : List (String × WVal))
  | arr (elems : List WVal)
  | setO (elems : List WVal)
  | mapO (entries : List (WVal × WVal))
  | promiseO
  | storeO (target : WVal) (subVals : List WVal)
  | primLike
  | skipSer
  | unknownK

/-- Walker state: the object heap, a fresh-id counter for arrays the walker
itself creates, the explicit worklist (head = top of stack), the serialization
context, the `SERIALIZABLE_ROOT_ID` side channel, and the outstanding-promise
list. -/
structure WalkSt where
  heap : Nat → WObj
  fresh : Nat
  stack : List WVal
  ctx : SerCtx
  sideIds : Nat → Option Int
  pending : List Nat

/-- `discoveredValues.push(...xs)`: the last element pushed ends on top. -/
def pushAll (xs : List WVal) (stack : List WVal) : List WVal :=
  xs.reverse ++ stack

/-- `shouldTrackObj` (lines 1250-1257): objects, and strings longer than 10
characters.  (`frameworkType` adds QRL function values, which are outside the
modelled graph.) -/
def shouldTrackObj (v : WVal) : Bool :=
  match v with
  | WVal.obj _ => true
  | WVal.strv s => decide (10 < s.length)
  | _ => false

/-- `unwrapProxy` on walked values, modelled from the spec: a reactive-store
proxy unwraps to its distinct target, everything else to itself. -/
def unwrapProxyW (h : Nat → WObj) (v : WVal) : WVal :=
  match v with
  | WVal.obj o =>
      match h o with
      | WObj.storeO t _ => t
      | _ => v
  | _ => v

/-- The subscriber-derived values the walker pushes for a store proxy
(`sub[SubscriptionProp.HOST .. sub.length)` over `manager.$subs$`, flattened). -/
def storeSubVals (h : Nat → WObj) (v : WVal) : List WVal :=
  match v with
  | WVal.obj o =>
      match h o with
      | WObj.storeO _ subs => subs
      | _ => []
  | _ => []

/-- Pairs `(k, v)` flattened to `k₁, v₁, k₂, v₂, …` the way `obj.forEach`
builds the `tuples` array for a `Map` (lines 751-758). -/
def flattenPairs : List (WVal × WVal) → List WVal
  | [] => []
  | (k, v) :: rest => k :: v :: flattenPairs rest

/-- Set scan (lines 747-750): root a fresh array holding the set's contents in
iteration order, record its root id on the set via `SERIALIZABLE_ROOT_ID`, and
push the contents onto the worklist. -/
def scanSet (s : WalkSt) (o : Nat) (elems : List WVal) : WalkSt :=
  { s with
    heap := fun n => if n = s.fresh then WObj.arr elems else s.heap n
    fresh := s.fresh + 1
    ctx := (addRoot s.ctx (WVal.obj s.fresh)).2
    sideIds := fun n =>
      if n = o then some (addRoot s.ctx (WVal.obj s.fresh)).1 else s.sideIds n
    stack := pushAll elems s.stack }

/-- Map scan (lines 751-758): flatten the entries into a fresh `tuples` array,
push each key and value while doing so, root the tuples array, record its id on
the map, then push the tuples array itself. -/
def scanMap (s : WalkSt) (o : Nat) (entries : List (WVal × WVal)) : WalkSt :=
  { s with
    heap := fun n => if n = s.fresh then WObj.arr (flattenPairs entries) else s.heap n
    fresh := s.fresh + 1
    ctx := (addRoot s.ctx (WVal.obj s.fresh)).2
    sideIds := fun n =>
      if n = o then some (addRoot s.ctx (WVal.obj s.fresh)).1 else s.sideIds n
    stack := pushAll (flattenPairs entries ++ [WVal.obj s.fresh]) s.stack }

/-- Content scan of a newly visited value: the `if/else` kind dispatch of lines
732-810.  `none` models the fatal `throw new Error('Unknown type: ...')`. -/
def scanContents (s : WalkSt) (obj : WVal) : Option WalkSt :=
  match obj with
  | WVal.strv _ => some s
  | WVal.obj o =>
      match s.heap o with
      | WObj.primLike => some s
      | WObj.skipSer => some s
      | WObj.setO elems => some (scanSet s o elems)
      | WObj.mapO entries => some (scanMap s o entries)
      | WObj.promiseO => some { s with pending := s.pending ++ [o] }
      | WObj.literal props =>
          some { s with stack := pushAll (props.map Prod.snd) s.stack }
      | WObj.arr elems => some { s with stack := pushAll elems s.stack }
      | WObj.storeO _ _ => some s
      | WObj.unknownK => none
  | _ => some s

/-- One visit of a popped worklist value (loop body, lines 712-816): the
reactive-store branch first, then the seen-state machine.  Root objects are
rescanned and never marked seen; a seen-once object is promoted to a root
without re-traversing its children. -/
def walkVisit (rootObj : WVal) (s0 : WalkSt) (obj : WVal) : Option WalkSt :=
  if unwrapProxyW s0.heap obj ≠ obj then
    some { s0 with
      stack := pushAll (unwrapProxyW s0.heap obj :: storeSubVals s0.heap obj) s0.stack }
  else if wasSeen s0.ctx obj = none ∨ obj = rootObj then
    scanContents (if obj = rootObj then s0 else { s0 with ctx := seen s0.ctx obj }) obj
  else if wasSeen s0.ctx obj = some minSafeInteger then
    some { s0 with ctx := (addRoot s0.ctx obj).2 }
  else
    some s0

/-- One iteration of the worklist loop: pop the top value, skip it if
untrackable, otherwise visit it. -/
def walkStep (rootObj : WVal) (s : WalkSt) : Option WalkSt :=
  match s.stack with
  | [] => some s
  | obj :: stk =>
      if shouldTrackObj obj then walkVisit rootObj { s with stack := stk } obj
      else some { s with stack := stk }

/-- The fulfilled-promise settlement callback (lines 791-794): root the
resolved value, store its id on the promise under `SERIALIZABLE_ROOT_ID`, and
remove the promise from the outstanding list. -/
def removeFirst : List Nat → Nat → List Nat
  | [], _ => []
  | x :: xs, p => if x = p then xs else x :: removeFirst xs p

def settleResolve (s : WalkSt) (p : Nat) (v : WVal) : WalkSt :=
  { s with
    ctx := (addRoot s.ctx v).2
    sideIds := fun n => if n = p then some (addRoot s.ctx v).1 else s.sideIds n
    pending := removeFirst s.pending p }

/-- The rejected-promise settlement callback (lines 796-799): store the bitwise
complement of a newly rooted error id. -/
def settleReject (s : WalkSt) (p : Nat) (e : WVal) : WalkSt :=
  { s with
    ctx := (addRoot s.ctx e).2
    sideIds := fun n => if n = p then some (jsBitNot (addRoot s.ctx e).1) else s.sideIds n
    pending := removeFirst s.pending p }

/-! ## Encoder payloads for rooted containers (`writeObjectValue`, 893-1018) -/

/-- `Set` branch (line 975-976): `Set_CHAR + getSerializableDataRootId(value)`;
`none` models the `assertDefined` failure for a missing side-channel id. -/
def writeSetValue (sideIds : Nat → Option Int) (o : Nat) : Option JStr :=
  (sideIds o).map fun id => 26 :: intToDigits id

/-- `Map` branch (line 977-978): `Map_CHAR + getSerializableDataRootId(value)`. -/
def writeMapValue (sideIds : Nat → Option Int) (o : Nat) : Option JStr :=
  (sideIds o).map fun id => 27 :: intToDigits id

/-- `Promise` branch (line 1006-1007):
`Promise_CHAR + getSerializableDataRootId(value)`. -/
def writePromiseValue (sideIds : Nat → Option Int) (o : Nat) : Option JStr :=
  (sideIds o).map fun id => 28 :: intToDigits id

/-! ## Decode-side inflation of Set/Map/Promise (`inflate`, lines 371-393) -/

/-- JS `Set.prototype.add` on an insertion-ordered element list. -/
def jsSetAdd (s : List WVal) (v : WVal) : List WVal :=
  if v ∈ s then s else s ++ [v]

/-- `arr[i++], arr[i++]` pairing of the flattened key/value array in the `Map`
case of `inflate`; a trailing odd key reads `undefined` past the end. -/
def pairUp : List WVal → List (WVal × WVal)
  | [] => []
  | [k] => [(k, WVal.undefv)]
  | k :: v :: rest => (k, v) :: pairUp rest

/-- `Set` case of `inflate` (lines 371-377): fetch the contents array by root
id and `add` each element in order into the empty allocated set. -/
def inflateSet (getObjectById : Int → Option (List WVal)) (payload : JStr) :
    Option (List WVal) :=
  (getObjectById (parseIntJS (restToken payload.tail 0))).map fun vs =>
    vs.foldl jsSetAdd []

/-- `Map` case of `inflate` (lines 378-384): fetch the flattened tuples array
by root id and `set` successive key/value pairs into the empty allocated map. -/
def inflateMap (getObjectById : Int → Option (List WVal)) (payload : JStr) :
    Option (List (WVal × WVal)) :=
  (getObjectById (parseIntJS (restToken payload.tail 0))).map fun vs =>
    (pairUp vs).foldl (fun m kv => assocSet m kv.1 kv.2) []

/-- Outcome of inflating a reconstructed promise. -/
inductive PromiseOutcome
  | resolvedWith (v : Option WVal)
  | rejectedWith (v : Option WVal)
deriving DecidableEq, Repr

/-- `Promise` case of `inflate` (lines 385-393): a non-negative id resolves the
shell with the object at that root id, a negative id rejects it with the
object at root id `~id`. -/
def inflatePromise (getObjectById : Int → Option WVal) (payload : JStr) :
    PromiseOutcome :=
  if 0 ≤ parseIntJS (restToken payload.tail 0) then
    PromiseOutcome.resolvedWith (getObjectById (parseIntJS (restToken payload.tail 0)))
  else
    PromiseOutcome.rejectedWith
      (getObjectById (jsBitNot (parseIntJS (restToken payload.tail 0))))

/-- Resolve a root id to the walker-created contents array it denotes. -/
def getRootArr (s : WalkSt) (i : Int) : Option (List WVal) :=
  match rootsGet s.ctx i with
  | some (WVal.obj g) =>
      match s.heap g with
      | WObj.arr xs => some xs
      | _ => none
  | _ => none

/-! ## Decode-side values and the lazy deserialization wrapper (lines 53-207) -/

/-- JavaScript number shape relevant to the serializer: `NaN`, the signed
infinities, or a finite number identified by its default decimal text form. -/
inductive JSNum
  | nan
  | inf
  | negInf
  | fin (repr : JStr)
deriving DecidableEq, Repr

/-- Decode-side value universe.  Objects carry a heap id (identity); strings,
numbers, bigints and booleans are identity-free primitives, as in JS. -/
inductive MVal
  | undef
  | nullv
  | num (n : JSNum)
  | bigintv (digits : JStr)
  | boolv (b : Bool)
  | str (s : JStr)
  | obj (id : Nat)
deriving DecidableEq, Repr

/-- Kind of a decode-side heap object.  `proxy t` is a deserializer proxy over
target `t` (only ever created over literals/arrays, whose prototype the proxy
forwards, so it passes `isObjectLiteral` and fails `vnode_isVNode`);
`other` covers every non-literal class instance (Set, Map, Error, Date,
Promise, signals, …). -/
inductive ObjKind
  | literal
  | arr
  | vnode
  | other
  | proxy (target : Nat)

/-- Decode-side heap state: object kinds, the module-level
`deserializedProxyMap` (target id ↦ proxy id), and a fresh-id counter. -/
structure WrapState where
  kind : Nat → ObjKind
  proxyOf : Nat → Option Nat
  fresh : Nat

/-- `isObjectLiteral` (lines 1268-1275) on kinds: a direct Object instance or
an array; a deserializer proxy forwards the prototype of its literal/array
target. -/
def isObjectLiteralK : ObjKind → Bool
  | ObjKind.literal => true
  | ObjKind.arr => true
  | ObjKind.proxy _ => true
  | _ => false

/-- `vnode_isVNode` on kinds (external `client/vnode`, modelled from the spec:
brands VNodes only; a deserializer proxy over a literal/array is not one). -/
def isVNodeK : ObjKind → Bool
  | ObjKind.vnode => true
  | _ => false

/-- `new Proxy(value, new DeserializationHandler(container))` plus
`deserializedProxyMap.set(value, proxy)`: register a fresh proxy object over
target `t`. -/
def proxyCreate (w : WrapState) (t : Nat) : WrapState :=
  { kind := fun n => if n = w.fresh then ObjKind.proxy t else w.kind n
    proxyOf := fun n => if n = t then some w.fresh else w.proxyOf n
    fresh := w.fresh + 1 }

/-- `wrapDeserializerProxy` (lines 70-90): wrap an eligible container (object
literal or array, not a VNode) in a `DeserializationHandler` proxy, caching one
proxy per target in `deserializedProxyMap`; return proxies and ineligible
values unchanged. -/
def wrapDeserializerProxy (w : WrapState) (v : MVal) : MVal × WrapState :=
  match v with
  | MVal.obj id =>
      if isObjectLiteralK (w.kind id) && !isVNodeK (w.kind id) then
        match w.kind id with
        | ObjKind.proxy _ => (v, w)
        | _ =>
            match w.proxyOf id with
            | some p => (MVal.obj p, w)
            | none => (MVal.obj w.fresh, proxyCreate w id)
      else (v, w)
  | _ => (v, w)

/-- `unwrapDeserializerProxy` (lines 57-63): a deserializer proxy yields its
target through the `SERIALIZER_PROXY_UNWRAP` trap, anything else is itself. -/
def unwrapDeserializerProxyM (w : WrapState) (v : MVal) : MVal :=
  match v with
  | MVal.obj id =>
      match w.kind id with
      | ObjKind.proxy t => MVal.obj t
      | _ => v
  | _ => v

/-- A fresh non-literal class instance produced by `allocate`
(`new Set()`, `new Error()`, `new Task(...)`, …). -/
def allocObj (w : WrapState) : MVal × WrapState :=
  (MVal.obj w.fresh,
    { w with
      kind := fun n => if n = w.fresh then ObjKind.other else w.kind n
      fresh := w.fresh + 1 })

/-- Shape of the shell `allocate` produces for a tag.  The eighteen branches of
the source switch that run a constructor (`parseQRL`, `new Task`, `new URL`,
`new Date`, `new RegExp`, `new Error`, `componentQrl`, `new SignalDerived`,
`new SignalImpl`, `new SignalWrapper`, `new URLSearchParams`, `new FormData`,
`new JSXNodeImpl`, `new Set`, `new Map`, the promise shell, `new Uint8Array`,
`createPropsProxy`) all yield a fresh non-literal heap object and are grouped
as `objK`; `failK` covers the `Resource` throw and the unknown-tag throw. -/
inductive AllocKind
  | undefK
  | objK
  | notFiniteK
  | bigintK
  | strK
  | failK

def objTags : List Nat := [16, 17, 2, 3, 4, 15, 19, 20, 21, 22, 14, 24, 25, 26, 27, 28, 30, 31]

def allocKindOf (tc : Nat) : AllocKind :=
  if tc = 0 then AllocKind.undefK
  else if tc ∈ objTags then AllocKind.objK
  else if tc = 7 then AllocKind.notFiniteK
  else if tc = 8 then AllocKind.bigintK
  else if tc = 5 then AllocKind.strK
  else AllocKind.failK

/-- `allocate` (lines 414-485): produce the empty, correctly typed shell for a
tagged payload, dispatching on the tag byte.  `none` models the two fatal
throws (`Resource`, tag 18, and an unknown tag).  Shells with object identity
are fresh non-literal heap objects; the `NotFinite`, `BigInt`, `String` and
`UNDEFINED` tags produce primitives. -/
def allocate (w : WrapState) (v : JStr) : Option (MVal × WrapState) :=
  match v.head? with
  | none => none
  | some tc =>
      match allocKindOf tc with
      | AllocKind.undefK => some (MVal.undef, w)
      | AllocKind.objK => some (allocObj w)
      | AllocKind.notFiniteK =>
          some (MVal.num (if v.tail = [] then JSNum.nan
            else if v.tail = [45] then JSNum.negInf else JSNum.inf), w)
      | AllocKind.bigintK => some (MVal.bigintv v.tail, w)
      | AllocKind.strK => some (MVal.str v.tail, w)
      | AllocKind.failK => none

/-- External DomContainer collaborators consumed by the handler, modelled from
their contracts: root resolution, VNode location, and the reactive-store
construction `getOrCreateProxy` (external `state/store`). -/
structure Container where
  getObjectById : Int → MVal
  vnodeDocument : MVal
  vnodeLocate : JStr → MVal
  getOrCreateProxy : MVal → MVal

/-- State of one proxied container: the decode-side heap, the container's own
properties (`Reflect.get`/`Reflect.set` target), whether the target is an
array, the unwrapped target's properties when the target is a reactive-store
proxy (`getProxyTarget(target) !== undefined`), and a log of the payloads
passed to `inflate` (the claim-relevant side effect of lines 173-176). -/
structure HState where
  wst : WrapState
  props : List (String × MVal)
  targetIsArray : Bool
  storeTarget : Option (List (String × MVal))
  inflateLog : List JStr

/-- The condition under which the handler does NOT cache a materialized value
(lines 159-177, negated): the value is a string that is empty or starts with a
control character, so it still looks like a serialized value. -/
def stringLooksSerialized (v : MVal) : Bool :=
  match v with
  | MVal.str s =>
      match s.head? with
      | some c => decide (c < 32)
      | none => true
  | _ => false

/-- Cache-and-inflate step after materialization (lines 159-177): write the
materialized value back unless it still looks serialized, then inflate when the
tag is in the needs-inflation range (`>= Error_VALUE`). -/
def cacheStep (st : HState) (prop : String) (tc : Nat) (serialized : JStr)
    (pv : MVal) : HState :=
  if stringLooksSerialized pv then st
  else
    if 15 ≤ tc then
      { st with
        props := assocSet st.props prop pv
        inflateLog := st.inflateLog ++ [serialized] }
    else { st with props := assocSet st.props prop pv }

/-- The trailing `propValue = wrapDeserializerProxy(this.$container$, propValue)`
of the get trap (line 179). -/
def finishGet (st : HState) (v : MVal) : MVal × HState :=
  ((wrapDeserializerProxy st.wst v).1, { st with wst := (wrapDeserializerProxy st.wst v).2 })

/-- The tag dispatch inside the get trap (lines 131-158): Reference resolves
through the container and unwraps; VNode goes to the document or
`vnode_locate`; Store builds the live proxy eagerly via `getOrCreateProxy`;
everything else goes through `allocate`.  (The DerivedSignal early return is
handled by the caller.) -/
def tagDispatch (c : Container) (st : HState) (s : JStr) (tc : Nat) :
    Option (MVal × HState) :=
  if tc = 1 then
    some (unwrapDeserializerProxyM st.wst (c.getObjectById (parseIntJS s.tail)), st)
  else if tc = 6 then
    some (if s.tail = [] then c.vnodeDocument else c.vnodeLocate s.tail, st)
  else if tc = 23 then
    some (c.getOrCreateProxy (c.getObjectById (parseIntJS s.tail)), st)
  else
    (allocate st.wst s).map fun vw => (vw.1, { st with wst := vw.2 })

/-- Main path of `DeserializationHandler.get` (lines 121-180), after the
store-proxy fast path.  `upgrade` stands for
`upgradePropsWithDerivedSignal` (lines 239-265), whose branch returns early
without the caching step; the remaining branches are modelled exactly. -/
def handlerGetMain (c : Container) (upgrade : HState → String → MVal × HState)
    (st : HState) (prop : String) : Option (MVal × HState) :=
  match (assocGet st.props prop).getD MVal.undef with
  | MVal.str s =>
      match s.head? with
      | some tc =>
          if tc < 32 then
            if tc = 20 ∧ st.targetIsArray = false then
              some (finishGet (upgrade st prop).2 (upgrade st prop).1)
            else
              match tagDispatch c st s tc with
              | some (pv, st1) => some (finishGet (cacheStep st1 prop tc s pv) pv)
              | none => none
          else some (finishGet st (MVal.str s))
      | none => some (finishGet st (MVal.str s))
  | pv => some (finishGet st pv)

/-- `DeserializationHandler.get` (lines 95-181).  When the target is a
reactive-store proxy, a stored string tagged `String_VALUE` on the *unwrapped*
target is allocated directly (lines 99-120); otherwise the main path runs. -/
def handlerGet (c : Container) (upgrade : HState → String → MVal × HState)
    (st : HState) (prop : String) : Option (MVal × HState) :=
  match st.storeTarget with
  | some unwrapped =>
      match assocGet unwrapped prop with
      | some (MVal.str s) =>
          if s.head? = some 5 then
            (allocate st.wst s).map fun vw => (vw.1, { st with wst := vw.2 })
          else handlerGetMain c upgrade st prop
      | _ => handlerGetMain c upgrade st prop
  | none => handlerGetMain c upgrade st prop

/-- `DeserializationHandler.set` (lines 183-199): a new string value whose
first character collides with a control tag is stored with the string-escape
prefix re-applied; everything else is stored as-is. -/
def handlerSet (st : HState) (prop : String) (v : MVal) : HState :=
  match v with
  | MVal.str s =>
      match s.head? with
      | some c =>
          if c < 32 then
            { st with props := assocSet st.props prop (MVal.str (5 :: s)) }
          else { st with props := assocSet st.props prop v }
      | none => { st with props := assocSet st.props prop v }
  | _ => { st with props := assocSet st.props prop v }

/-! ## Encoder scalar fast paths (`writeValue`, lines 837-891) -/

/-- A value reaching one of `writeValue`'s non-object fast paths. -/
inductive SVal
  | bigintv (digits : JStr)
  | boolv (b : Bool)
  | num (n : JSNum)
  | strv (s : JStr)
  | undef
deriving DecidableEq, Repr

/-- What `writeValue` emits for a scalar: `tagged` payloads go through
`writeString` (a JSON string token on the wire), `raw` text is written
directly (`$writer$.write(String(value))`). -/
inductive WireOut
  | tagged (s : JStr)
  | raw (s : JStr)
deriving DecidableEq, Repr

/-- Char codes of `"true"` / `"false"` as written by `String(value)`. -/
def boolCodes (b : Bool) : JStr :=
  if b then [116, 114, 117, 101] else [102, 97, 108, 115, 101]

/-- The scalar branches of `writeValue` (lines 837-891): bigint and undefined
are tagged; booleans and finite numbers are written in their default text
form; `NaN` is the bare not-finite tag and the infinities carry a sign suffix;
a tracked, already-rooted string below the top level becomes a back-reference;
a string starting with a control character gets the string-escape prefix. -/
def writeValueScalar (hasRoot : JStr → Option Int) (depth : Int) (v : SVal) :
    WireOut :=
  match v with
  | SVal.bigintv d => WireOut.tagged (8 :: d)
  | SVal.boolv b => WireOut.raw (boolCodes b)
  | SVal.num JSNum.nan => WireOut.tagged [7]
  | SVal.num JSNum.inf => WireOut.tagged [7, 43]
  | SVal.num JSNum.negInf => WireOut.tagged [7, 45]
  | SVal.num (JSNum.fin r) => WireOut.raw r
  | SVal.strv s =>
      match if decide (10 < s.length) ∧ 0 < depth then hasRoot s else none with
      | some seenIdx => WireOut.tagged (1 :: intToDigits seenIdx)
      | none =>
          match s.head? with
          | some c => if c < 32 then WireOut.tagged (5 :: s) else WireOut.tagged s
          | none => WireOut.tagged s
  | SVal.undef => WireOut.tagged [0]

/-! ## Concrete fixtures used by witnesses -/

/-- Reactive-store discriminator on walked heap objects. -/
def isStoreK : WObj → Bool
  | WObj.storeO _ _ => true
  | _ => false

def w0 : WrapState := ⟨fun _ => ObjKind.other, fun _ => none, 0⟩

def container0 : Container :=
  ⟨fun _ => MVal.undef, MVal.undef, fun _ => MVal.undef, fun v => v⟩

def upgrade0 : HState → String → MVal × HState := fun st _ => (MVal.undef, st)

def hst0 : HState := ⟨w0, [("a", MVal.str [26, 48])], false, none, []⟩

def hset0 : HState := ⟨w0, [], false, none, []⟩

def heapA : Nat → WObj := fun n =>
  if n = 0 then WObj.literal [("x", WVal.numv 1), ("y", WVal.strv [104])]
  else WObj.primLike

def stA : WalkSt := ⟨heapA, 5, [WVal.obj 0], emptyCtx, fun _ => none, []⟩

def stB : WalkSt :=
  ⟨heapA, 5, [WVal.obj 0], ⟨[(WVal.obj 0, minSafeInteger)], []⟩, fun _ => none, []⟩

def heapStore : Nat → WObj := fun n =>
  if n = 0 then WObj.storeO (WVal.obj 1) [] else WObj.literal []

def stStore : WalkSt := ⟨heapStore, 5, [WVal.obj 0], emptyCtx, fun _ => none, []⟩

def heapSet : Nat → WObj := fun n =>
  if n = 0 then WObj.setO [WVal.numv 1, WVal.numv 2] else WObj.primLike

def stSet : WalkSt := ⟨heapSet, 5, [WVal.obj 0], emptyCtx, fun _ => none, []⟩

def heapMap : Nat → WObj := fun n =>
  if n = 0 then WObj.mapO [(WVal.strv [107], WVal.numv 2)] else WObj.primLike

def stMap : WalkSt := ⟨heapMap, 5, [WVal.obj 0], emptyCtx, fun _ => none, []⟩

def stProm : WalkSt := ⟨fun _ => WObj.promiseO, 5, [], emptyCtx, fun _ => none, [3]⟩

def ctx4 : SerCtx := ⟨[(WVal.obj 1, 0)], [WVal.obj 1]⟩

def wW : WrapState :=
  ⟨fun n =>
    if n = 0 then ObjKind.literal
    else if n = 1 then ObjKind.proxy 5
    else if n = 2 then ObjKind.vnode
    else ObjKind.other,
  fun _ => none, 10⟩

/-! ## Claim statements -/

/-- Conclusion of claim C3: the first read materializes the tagged payload via
`allocate`, writes the result back into the target, and a second read returns
the identical value with the identical state; the inflate log grows by at most
one entry over both reads. -/
def c3Concl (c : Container) (up : HState → String → MVal × HState)
    (st : HState) (prop : String) (s : JStr) : Prop :=
  ∃ v st',
    (allocate st.wst s).map Prod.fst = some v ∧
    handlerGet c up st prop = some (v, st') ∧
    assocGet st'.props prop = some v ∧
    handlerGet c up st' prop = some (v, st') ∧
    st'.inflateLog.length ≤ st.inflateLog.length + 1

/-- Conclusion of claim C4: a fresh promotion receives id `roots.length` and
appends to the root list; an existing root binding survives any `$addRoot$`;
`$addRoot$` is idempotent; no two values share a root id. -/
def c4Concl (c : SerCtx) (v w : WVal) (i : Int) : Prop :=
  ((assocGet c.map v = none ∨ assocGet c.map v = some minSafeInteger) →
    (addRoot c v).1 = (c.roots.length : Int) ∧ (addRoot c v).2.roots = c.roots ++ [v]) ∧
  assocGet (addRoot c v).2.map w = some i ∧
  addRoot (addRoot c v).2 v = ((addRoot c v).1, (addRoot c v).2) ∧
  (∀ u, assocGet c.map u = some i → u = w)

/-- Claim C5, first-visit conjunct: an unseen non-root object literal is marked
seen-once and its property values are pushed, without creating roots. -/
def c5FirstVisit (r : WVal) (s : WalkSt) (o : Nat)
    (props : List (String × WVal)) (stk : List WVal) : Prop :=
  ∃ s', walkStep r s = some s' ∧
    wasSeen s'.ctx (WVal.obj o) = some minSafeInteger ∧
    s'.stack = pushAll (props.map Prod.snd) stk ∧
    s'.ctx.roots = s.ctx.roots

/-- Claim C5, second-visit conjunct: a seen-once non-root (non-store) object is
promoted to a root with id `roots.length` and its children are not
re-traversed. -/
def c5SecondVisit (r : WVal) (s : WalkSt) (o : Nat) (stk : List WVal) : Prop :=
  ∃ s', walkStep r s = some s' ∧
    s'.stack = stk ∧
    s'.ctx.roots = s.ctx.roots ++ [WVal.obj o] ∧
    wasSeen s'.ctx (WVal.obj o) = some (s.ctx.roots.length : Int) ∧
    s'.heap = s.heap ∧ s'.sideIds = s.sideIds ∧ s'.pending = s.pending

/-- Claim C5, root-visit conjunct: the declared root of the walk is rescanned
in full even when already marked seen-once, and its seen state is untouched. -/
def c5RootVisit (s : WalkSt) (o : Nat)
    (props : List (String × WVal)) (stk : List WVal) : Prop :=
  ∃ s', walkStep (WVal.obj o) s = some s' ∧
    s'.stack = pushAll (props.map Prod.snd) stk ∧
    s'.ctx = s.ctx

/-- Conclusion of claim C6, fulfilled side: settlement roots the resolved value
and stores its non-negative id on the promise, the promise encodes to the
Promise tag plus that id, and inflating the payload resolves the reconstructed
promise with the rooted value. -/
def c6ResolveConcl (s : WalkSt) (p : Nat) (v : WVal) : Prop :=
  (settleResolve s p v).sideIds p = some (addRoot s.ctx v).1 ∧
  0 ≤ (addRoot s.ctx v).1 ∧
  writePromiseValue (settleResolve s p v).sideIds p
    = some (28 :: intToDigits (addRoot s.ctx v).1) ∧
  inflatePromise (rootsGet (settleResolve s p v).ctx)
    (28 :: intToDigits (addRoot s.ctx v).1) = PromiseOutcome.resolvedWith (some v)

/-- Conclusion of claim C6, rejected side: settlement stores the bit-complement
of a newly rooted error id (negative), and inflating the encoded payload
rejects the reconstructed promise with the object at root id `~id`. -/
def c6RejectConcl (s : WalkSt) (p : Nat) (e : WVal) : Prop :=
  (settleReject s p e).sideIds p = some (jsBitNot (addRoot s.ctx e).1) ∧
  jsBitNot (addRoot s.ctx e).1 < 0 ∧
  writePromiseValue (settleReject s p e).sideIds p
    = some (28 :: intToDigits (jsBitNot (addRoot s.ctx e).1)) ∧
  inflatePromise (rootsGet (settleReject s p e).ctx)
    (28 :: intToDigits (jsBitNot (addRoot s.ctx e).1)) = PromiseOutcome.rejectedWith (some e)

/-- Conclusion of claim C9 for a `Set`: the walker roots a fresh array holding
the elements in insertion order and records its id on the set, the encoder
emits the Set tag plus that id, and inflation re-adds the elements in the same
order. -/
def c9SetConcl (r : WVal) (s : WalkSt) (o : Nat) (es : List WVal) : Prop :=
  ∃ s', walkStep r s = some s' ∧
    s'.sideIds o = some (s.ctx.roots.length : Int) ∧
    rootsGet s'.ctx (s.ctx.roots.length : Int) = some (WVal.obj s.fresh) ∧
    s'.heap s.fresh = WObj.arr es ∧
    writeSetValue s'.sideIds o = some (26 :: intToDigits (s.ctx.roots.length : Int)) ∧
    inflateSet (getRootArr s') (26 :: intToDigits (s.ctx.roots.length : Int)) = some es

/-- Conclusion of claim C9 for a `Map`: the walker roots a fresh array holding
the flattened entries in insertion order and records its id on the map, the
encoder emits the Map tag plus that id, and inflation re-adds the key/value
pairs in the same order. -/
def c9MapConcl (r : WVal) (s : WalkSt) (o : Nat) (entries : List (WVal × WVal)) : Prop :=
  ∃ s', walkStep r s = some s' ∧
    s'.sideIds o = some (s.ctx.roots.length : Int) ∧
    rootsGet s'.ctx (s.ctx.roots.length : Int) = some (WVal.obj s.fresh) ∧
    s'.heap s.fresh = WObj.arr (flattenPairs entries) ∧
    writeMapValue s'.sideIds o = some (27 :: intToDigits (s.ctx.roots.length : Int)) ∧
    inflateMap (getRootArr s') (27 :: intToDigits (s.ctx.roots.length : Int)) = some entries

/-- Conclusion of claim C10: wrapping the same eligible target twice yields the
identical proxy and state, wrapping the returned proxy is the identity, a
value that is already a deserializer proxy is returned unchanged, and every
ineligible value (non-objects, null, undefined, strings, numbers, non-literal
objects, VNodes) is returned unchanged. -/
def c10Concl (w : WrapState) (t q u : Nat) : Prop :=
  wrapDeserializerProxy (wrapDeserializerProxy w (MVal.obj t)).2 (MVal.obj t)
      = wrapDeserializerProxy w (MVal.obj t) ∧
  wrapDeserializerProxy (wrapDeserializerProxy w (MVal.obj t)).2
      (wrapDeserializerProxy w (MVal.obj t)).1
      = wrapDeserializerProxy w (MVal.obj t) ∧
  wrapDeserializerProxy w (MVal.obj q) = (MVal.obj q, w) ∧
  wrapDeserializerProxy w (MVal.obj u) = (MVal.obj u, w) ∧
  wrapDeserializerProxy w MVal.nullv = (MVal.nullv, w) ∧
  wrapDeserializerProxy w MVal.undef = (MVal.undef, w) ∧
  (∀ sx, wrapDeserializerProxy w (MVal.str sx) = (MVal.str sx, w)) ∧
  (∀ n, wrapDeserializerProxy w (MVal.num n) = (MVal.num n, w))

/-! ## Helper lemmas -/

theorem assocGet_assocSet_self {α β : Type} [DecidableEq α]
    (l : List (α × β)) (a : α) (b : β) :
    assocGet (assocSet l a b) a = some b := by
  induction l with
  | nil => simp [assocGet, assocSet]
  | cons p rest ih =>
      obtain ⟨k, v⟩ := p
      by_cases h : k = a
      · subst h; simp [assocGet, assocSet]
      · simp [assocGet, assocSet, h, ih]

theorem assocGet_assocSet_ne {α β : Type} [DecidableEq α]
    (l : List (α × β)) (a a' : α) (b : β) (h : a ≠ a') :
    assocGet (assocSet l a b) a' = assocGet l a' := by
  induction l with
  | nil => simp [assocGet, assocSet, h]
  | cons p rest ih =>
      obtain ⟨k, v⟩ := p
      by_cases hk : k = a
      · subst hk; simp [assocGet, assocSet, h]
      · simp [assocGet, assocSet, hk, ih]

theorem assocGet_mem {α β : Type} [DecidableEq α]
    (l : List (α × β)) (a : α) (b : β) (h : assocGet l a = some b) :
    (a, b) ∈ l := by
  induction l with
  | nil => simp [assocGet] at h
  | cons p rest ih =>
      obtain ⟨k, v⟩ := p
      by_cases hk : k = a
      · subst hk
        simp [assocGet] at h
        simp [h]
      · simp [assocGet, hk] at h
        exact List.mem_cons_of_mem _ (ih h)

theorem assocSet_fresh {α β : Type} [DecidableEq α]
    (l : List (α × β)) (a : α) (b : β) (h : ∀ p ∈ l, p.1 ≠ a) :
    assocSet l a b = l ++ [(a, b)] := by
  induction l with
  | nil => simp [assocSet]
  | cons p rest ih =>
      obtain ⟨k, v⟩ := p
      have hk : k ≠ a := h (k, v) (List.mem_cons_self _ _)
      simp only [assocSet, if_neg hk, List.cons_append]
      rw [ih (fun q hq => h q (List.mem_cons_of_mem _ hq))]

theorem natToDigits_foldl (n : Nat) :
    ∀ a : Nat, (natToDigits n).foldl (fun x c => x * 10 + (c - 48)) a
      = a * 10 ^ (natToDigits n).length + n := by
  induction n using Nat.strong_induction_on with
  | _ n ih =>
      intro a
      rw [natToDigits]
      by_cases h : n < 10
      · simp [h]
      · have hd : n / 10 < n := Nat.div_lt_self (by omega) (by omega)
        simp only [h, dif_neg, not_false_iff, List.foldl_append, List.length_append,
          List.foldl_cons, List.foldl_nil, List.length_cons, List.length_nil]
        rw [ih (n / 10) hd a]
        have : 48 + n % 10 - 48 = n % 10 := by omega
        rw [this, pow_succ]
        have := Nat.div_add_mod n 10
        ring_nf
        omega

theorem parseDigits_natToDigits (n : Nat) : parseDigits (natToDigits n) = n := by
  have := natToDigits_foldl n 0
  simpa [parseDigits] using this

theorem natToDigits_mem_range (n : Nat) :
    ∀ c ∈ natToDigits n, 48 ≤ c ∧ c ≤ 57 := by
  induction n using Nat.strong_induction_on with
  | _ n ih =>
      intro c hc
      rw [natToDigits] at hc
      by_cases h : n < 10
      · simp [h] at hc
        omega
      · have hd : n / 10 < n := Nat.div_lt_self (by omega) (by omega)
        simp only [h, dif_neg, not_false_iff, List.mem_append, List.mem_singleton] at hc
        rcases hc with hc | hc
        · exact ih (n / 10) hd c hc
        · have := Nat.mod_lt n (show 0 < 10 by omega)
          omega

theorem natToDigits_ne_nil (n : Nat) : natToDigits n ≠ [] := by
  rw [natToDigits]
  by_cases h : n < 10
  · simp [h]
  · simp [h]

theorem parseIntJS_cons (c : Nat) (t : JStr) (h : c ≠ 45) :
    parseIntJS (c :: t) = (parseDigits (c :: t) : Int) := by
  unfold parseIntJS
  split
  · next rest heq =>
      injection heq with h1 _
      exact absurd h1 h
  · rfl

theorem parseIntJS_neg_cons (t : JStr) :
    parseIntJS (45 :: t) = -(parseDigits t : Int) := rfl

theorem parseIntJS_intToDigits (i : Int) : parseIntJS (intToDigits i) = i := by
  unfold intToDigits
  by_cases h : i < 0
  · rw [if_pos h, parseIntJS_neg_cons, parseDigits_natToDigits]
    have : ((-i).toNat : Int) = -i := Int.toNat_of_nonneg (by omega)
    omega
  · rw [if_neg h]
    obtain ⟨c, t, hct⟩ := List.exists_cons_of_ne_nil (natToDigits_ne_nil i.toNat)
    have hc : 48 ≤ c ∧ c ≤ 57 := by
      apply natToDigits_mem_range
      rw [hct]; exact List.mem_cons_self _ _
    rw [hct, parseIntJS_cons c t (by omega), ← hct, parseDigits_natToDigits]
    omega

theorem restToken_no_space (s : JStr) (h : ∀ c ∈ s, c ≠ 32) :
    ∀ d : Int, restToken s d = s := by
  induction s with
  | nil => intro d; rfl
  | cons c cs ih =>
      intro d
      have hc : c ≠ 32 := h c (List.mem_cons_self _ _)
      simp only [restToken]
      rw [if_neg (by simp [hc])]
      rw [ih (fun x hx => h x (List.mem_cons_of_mem _ hx))]

theorem intToDigits_no_space (i : Int) : ∀ c ∈ intToDigits i, c ≠ 32 := by
  intro c hc
  unfold intToDigits at hc
  by_cases h : i < 0
  · simp only [h, if_pos, List.mem_cons] at hc
    rcases hc with hc | hc
    · omega
    · have := natToDigits_mem_range (-i).toNat c hc
      omega
  · simp only [h, if_neg, not_false_iff] at hc
    have := natToDigits_mem_range i.toNat c hc
    omega

theorem parse_roundTrip (i : Int) :
    parseIntJS (restToken (intToDigits i) 0) = i := by
  rw [restToken_no_space _ (intToDigits_no_space i), parseIntJS_intToDigits]

theorem foldl_jsSetAdd (es : List WVal) :
    ∀ acc : List WVal, es.Nodup → (∀ x ∈ es, x ∉ acc) →
      es.foldl jsSetAdd acc = acc ++ es := by
  induction es with
  | nil => intro acc _ _; simp
  | cons e rest ih =>
      intro acc hnd hni
      have hne : e ∉ acc := hni e (List.mem_cons_self _ _)
      have h1 : jsSetAdd acc e = acc ++ [e] := by simp [jsSetAdd, hne]
      simp only [List.foldl_cons, h1]
      rw [ih (acc ++ [e]) (List.Nodup.of_cons hnd)]
      · simp
      · intro x hx
        simp only [List.mem_append, List.mem_singleton]
        rintro (hxa | rfl)
        · exact hni x (List.mem_cons_of_mem _ hx) hxa
        · exact (List.nodup_cons.mp hnd).1 hx

theorem foldl_assocSet (entries : List (WVal × WVal)) :
    ∀ acc : List (WVal × WVal), (entries.map Prod.fst).Nodup →
      (∀ kv ∈ entries, ∀ p ∈ acc, p.1 ≠ kv.1) →
      entries.foldl (fun m kv => assocSet m kv.1 kv.2) acc = acc ++ entries := by
  induction entries with
  | nil => intro acc _ _; simp
  | cons e rest ih =>
      intro acc hnd hni
      obtain ⟨k, v⟩ := e
      have h1 : assocSet acc k v = acc ++ [(k, v)] :=
        assocSet_fresh acc k v (fun p hp => hni (k, v) (List.mem_cons_self _ _) p hp)
      have hnd' : (rest.map Prod.fst).Nodup := by
        simp only [List.map_cons, List.nodup_cons] at hnd
        exact hnd.2
      have hkn : k ∉ rest.map Prod.fst := by
        simp only [List.map_cons, List.nodup_cons] at hnd
        exact hnd.1
      have hni' : ∀ kv ∈ rest, ∀ p ∈ acc ++ [(k, v)], p.1 ≠ kv.1 := by
        intro kv hkv p hp
        simp only [List.mem_append, List.mem_singleton] at hp
        rcases hp with hpa | rfl
        · exact hni kv (List.mem_cons_of_mem _ hkv) p hpa
        · intro hEq
          exact hkn (by
            have := List.mem_map_of_mem Prod.fst hkv
            rwa [← hEq] at this)
      simp only [List.foldl_cons, h1]
      rw [ih (acc ++ [(k, v)]) hnd' hni']
      simp

theorem pairUp_flattenPairs (l : List (WVal × WVal)) :
    pairUp (flattenPairs l) = l := by
  induction l with
  | nil => rfl
  | cons e rest ih =>
      obtain ⟨k, v⟩ := e
      simp only [flattenPairs, pairUp, ih]

theorem addRoot_resolves (c : SerCtx) (v : WVal) (h : ctxInv c = true) :
    0 ≤ (addRoot c v).1 ∧ rootsGet (addRoot c v).2 (addRoot c v).1 = some v := by
  unfold addRoot
  cases hm : assocGet c.map v with
  | none =>
      constructor
      · exact Int.ofNat_nonneg _
      · simp [rootsGet, Int.toNat_natCast]
  | some id =>
      by_cases hid : id = minSafeInteger
      · simp only [hid, if_pos rfl]
        constructor
        · exact Int.ofNat_nonneg _
        · simp [rootsGet, Int.toNat_natCast]
      · simp only [if_neg hid]
        have hmem := assocGet_mem c.map v id hm
        have hall := (List.all_eq_true.mp h) (v, id) hmem
        simp only [Bool.or_eq_true, beq_iff_eq, Bool.and_eq_true, decide_eq_true_eq] at hall
        rcases hall with hall | ⟨⟨h0, h1⟩, h2⟩
        · exact absurd hall hid
        · refine ⟨h0, ?_⟩
          rw [rootsGet, if_pos h0]
          exact h2

theorem wrap_other (w : WrapState) (id : Nat) (h : w.kind id = ObjKind.other) :
    wrapDeserializerProxy w (MVal.obj id) = (MVal.obj id, w) := by
  unfold wrapDeserializerProxy
  simp only []
  rw [h]
  rfl

theorem wrap_vnode (w : WrapState) (id : Nat) (h : w.kind id = ObjKind.vnode) :
    wrapDeserializerProxy w (MVal.obj id) = (MVal.obj id, w) := by
  unfold wrapDeserializerProxy
  simp only []
  rw [h]
  rfl

theorem wrap_proxyK (w : WrapState) (id t : Nat) (h : w.kind id = ObjKind.proxy t) :
    wrapDeserializerProxy w (MVal.obj id) = (MVal.obj id, w) := by
  unfold wrapDeserializerProxy
  simp only []
  rw [h]
  rfl

theorem wrap_allocObj (w : WrapState) :
    wrapDeserializerProxy (allocObj w).2 (allocObj w).1 = ((allocObj w).1, (allocObj w).2) := by
  have hk : (allocObj w).2.kind w.fresh = ObjKind.other := by
    show (if w.fresh = w.fresh then ObjKind.other else w.kind w.fresh) = ObjKind.other
    rw [if_pos rfl]
  exact wrap_other (allocObj w).2 w.fresh hk

theorem wrap_eligible_cached (w : WrapState) (t p0 : Nat)
    (hk : w.kind t = ObjKind.literal ∨ w.kind t = ObjKind.arr)
    (hp : w.proxyOf t = some p0) :
    wrapDeserializerProxy w (MVal.obj t) = (MVal.obj p0, w) := by
  unfold wrapDeserializerProxy
  simp only []
  rcases hk with hk | hk <;> rw [hk, hp] <;> rfl

theorem wrap_eligible_fresh (w : WrapState) (t : Nat)
    (hk : w.kind t = ObjKind.literal ∨ w.kind t = ObjKind.arr)
    (hp : w.proxyOf t = none) :
    wrapDeserializerProxy w (MVal.obj t) = (MVal.obj w.fresh, proxyCreate w t) := by
  unfold wrapDeserializerProxy
  simp only []
  rcases hk with hk | hk <;> rw [hk, hp] <;> rfl

theorem addRoot_of_rooted (c : SerCtx) (v : WVal) (i : Int)
    (h : assocGet c.map v = some i) (hi : i ≠ minSafeInteger) :
    addRoot c v = (i, c) := by
  unfold addRoot
  rw [h]
  simp only []
  rw [if_neg hi]

theorem addRoot_self_get (c : SerCtx) (v : WVal) :
    assocGet (addRoot c v).2.map v = some (addRoot c v).1 ∧
      (addRoot c v).1 ≠ minSafeInteger := by
  unfold addRoot
  cases hm : assocGet c.map v with
  | none =>
      simp only []
      exact ⟨assocGet_assocSet_self _ _ _, by unfold minSafeInteger; omega⟩
  | some id =>
      by_cases hid : id = minSafeInteger
      · simp only []
        rw [if_pos hid]
        exact ⟨assocGet_assocSet_self _ _ _, by unfold minSafeInteger; omega⟩
      · simp only []
        rw [if_neg hid]
        exact ⟨hm, hid⟩

theorem addRoot_idem (c : SerCtx) (v : WVal) :
    addRoot (addRoot c v).2 v = ((addRoot c v).1, (addRoot c v).2) :=
  addRoot_of_rooted _ _ _ (addRoot_self_get c v).1 (addRoot_self_get c v).2

theorem ctxInv_lookup (c : SerCtx) (u : WVal) (i : Int) (h : ctxInv c = true)
    (hu : assocGet c.map u = some i) (hi : i ≠ minSafeInteger) :
    c.roots.get? i.toNat = some u := by
  have hmem := assocGet_mem c.map u i hu
  have hall := (List.all_eq_true.mp h) (u, i) hmem
  simp only [Bool.or_eq_true, beq_iff_eq, Bool.and_eq_true, decide_eq_true_eq] at hall
  rcases hall with hall | ⟨⟨_, _⟩, h2⟩
  · exact absurd hall hi
  · exact h2

theorem jsBitNot_jsBitNot (x : Int) : jsBitNot (jsBitNot x) = x := by
  unfold jsBitNot
  ring

theorem allocate_wrap_id (w : WrapState) (s : JStr) (vw : MVal × WrapState)
    (h : allocate w s = some vw) :
    wrapDeserializerProxy vw.2 vw.1 = (vw.1, vw.2) := by
  unfold allocate at h
  cases hs : s.head? with
  | none => rw [hs] at h; exact Option.noConfusion h
  | some tc =>
      rw [hs] at h
      simp only [] at h
      cases hk : allocKindOf tc <;> rw [hk] at h <;>
        first
          | exact Option.noConfusion h
          | (rw [← Option.some.inj h]; exact wrap_allocObj w)
          | (rw [← Option.some.inj h]; rfl)

theorem addRoot_unseen (c : SerCtx) (v : WVal) (h : assocGet c.map v = none) :
    addRoot c v = ((c.roots.length : Int),
      ⟨assocSet c.map v (c.roots.length : Int), c.roots ++ [v]⟩) := by
  unfold addRoot
  rw [h]

theorem addRoot_seen_once (c : SerCtx) (v : WVal)
    (h : assocGet c.map v = some minSafeInteger) :
    addRoot c v = ((c.roots.length : Int),
      ⟨assocSet c.map v (c.roots.length : Int), c.roots ++ [v]⟩) := by
  unfold addRoot
  rw [h]
  rfl

theorem unwrapProxyW_nonstore (h : Nat → WObj) (o : Nat)
    (hns : isStoreK (h o) = false) :
    unwrapProxyW h (WVal.obj o) = WVal.obj o := by
  unfold unwrapProxyW
  simp only []
  cases hh : h o <;> first | rfl | (rw [hh] at hns; simp [isStoreK] at hns)

theorem walkStep_cons (r : WVal) (s : WalkSt) (obj : WVal) (stk : List WVal)
    (h : s.stack = obj :: stk) (htrack : shouldTrackObj obj = true) :
    walkStep r s = walkVisit r { s with stack := stk } obj := by
  unfold walkStep
  rw [h]
  simp only []
  rw [htrack]
  rfl

theorem scanContents_literal (s : WalkSt) (o : Nat) (props : List (String × WVal))
    (h : s.heap o = WObj.literal props) :
    scanContents s (WVal.obj o)
      = some { s with stack := pushAll (props.map Prod.snd) s.stack } := by
  unfold scanContents
  simp only []
  rw [h]

theorem scanContents_set (s : WalkSt) (o : Nat) (elems : List WVal)
    (h : s.heap o = WObj.setO elems) :
    scanContents s (WVal.obj o) = some (scanSet s o elems) := by
  unfold scanContents
  simp only []
  rw [h]

theorem scanContents_map (s : WalkSt) (o : Nat) (entries : List (WVal × WVal))
    (h : s.heap o = WObj.mapO entries) :
    scanContents s (WVal.obj o) = some (scanMap s o entries) := by
  unfold scanContents
  simp only []
  rw [h]

theorem walkVisit_unseen (r : WVal) (s0 : WalkSt) (obj : WVal)
    (huw : unwrapProxyW s0.heap obj = obj) (h3 : obj ≠ r)
    (h4 : wasSeen s0.ctx obj = none) :
    walkVisit r s0 obj = scanContents { s0 with ctx := seen s0.ctx obj } obj := by
  unfold walkVisit
  rw [huw, if_neg (by simp), h4, if_pos (Or.inl rfl), if_neg h3]

theorem walkVisit_seen_once (r : WVal) (s0 : WalkSt) (obj : WVal)
    (huw : unwrapProxyW s0.heap obj = obj) (h3 : obj ≠ r)
    (h4 : wasSeen s0.ctx obj = some minSafeInteger) :
    walkVisit r s0 obj = some { s0 with ctx := (addRoot s0.ctx obj).2 } := by
  unfold walkVisit
  rw [huw, if_neg (by simp), h4,
    if_neg (by
      rintro (hc | hc)
      · exact Option.noConfusion hc
      · exact h3 hc),
    if_pos rfl]

theorem walkVisit_root (s0 : WalkSt) (obj : WVal)
    (huw : unwrapProxyW s0.heap obj = obj) :
    walkVisit obj s0 obj = scanContents s0 obj := by
  unfold walkVisit
  rw [huw, if_neg (by simp), if_pos (Or.inr rfl), if_pos rfl]

theorem list_get_concat_length (l : List WVal) (v : WVal) :
    (l ++ [v]).get? l.length = some v := by
  induction l with
  | nil => rfl
  | cons x xs ih =>
      simp only [List.cons_append, List.length_cons, List.get?_cons_succ]
      exact ih

theorem cacheStep_wst (st : HState) (prop : String) (tc : Nat) (s : JStr)
    (pv : MVal) : (cacheStep st prop tc s pv).wst = st.wst := by
  unfold cacheStep
  split_ifs <;> rfl

theorem cacheStep_storeTarget (st : HState) (prop : String) (tc : Nat) (s : JStr)
    (pv : MVal) : (cacheStep st prop tc s pv).storeTarget = st.storeTarget := by
  unfold cacheStep
  split_ifs <;> rfl

theorem cacheStep_props (st : HState) (prop : String) (tc : Nat) (s : JStr)
    (pv : MVal) (h : stringLooksSerialized pv = false) :
    (cacheStep st prop tc s pv).props = assocSet st.props prop pv := by
  unfold cacheStep
  rw [if_neg (by simp [h])]
  split_ifs <;> rfl

theorem cacheStep_skip (st : HState) (prop : String) (tc : Nat) (s : JStr)
    (pv : MVal) (h : stringLooksSerialized pv = true) :
    cacheStep st prop tc s pv = st := by
  unfold cacheStep
  rw [if_pos h]

theorem cacheStep_log_len (st : HState) (prop : String) (tc : Nat) (s : JStr)
    (pv : MVal) :
    (cacheStep st prop tc s pv).inflateLog.length ≤ st.inflateLog.length + 1 := by
  unfold cacheStep
  split_ifs <;> simp

theorem finishGet_id (st : HState) (v : MVal)
    (h : wrapDeserializerProxy st.wst v = (v, st.wst)) :
    finishGet st v = (v, st) := by
  unfold finishGet
  rw [h]

theorem handlerGet_noStore (c : Container) (up : HState → String → MVal × HState)
    (st : HState) (prop : String) (h1 : st.storeTarget = none) :
    handlerGet c up st prop = handlerGetMain c up st prop := by
  unfold handlerGet
  rw [h1]

theorem handlerGetMain_tagged (c : Container) (up : HState → String → MVal × HState)
    (st : HState) (prop : String) (s : JStr) (tc : Nat)
    (h2 : assocGet st.props prop = some (MVal.str s))
    (h3 : s.head? = some tc) (h4 : tc < 32) (h7 : tc ≠ 20) :
    handlerGetMain c up st prop
      = match tagDispatch c st s tc with
        | some (pv, st1) => some (finishGet (cacheStep st1 prop tc s pv) pv)
        | none => none := by
  unfold handlerGetMain
  rw [h2]
  simp only [Option.getD_some]
  rw [h3]
  simp only []
  rw [if_pos h4, if_neg (fun hcon => h7 hcon.1)]

theorem tagDispatch_allocate (c : Container) (st : HState) (s : JStr) (tc : Nat)
    (h5 : tc ≠ 1) (h6 : tc ≠ 6) (h8 : tc ≠ 23) :
    tagDispatch c st s tc
      = (allocate st.wst s).map fun vw => (vw.1, { st with wst := vw.2 }) := by
  unfold tagDispatch
  rw [if_neg h5, if_neg h6, if_neg h8]

theorem handlerGetMain_materialized (c : Container)
    (up : HState → String → MVal × HState) (st : HState) (prop : String) (v : MVal)
    (h2 : assocGet st.props prop = some v)
    (h10 : stringLooksSerialized v = false)
    (hwrap : wrapDeserializerProxy st.wst v = (v, st.wst)) :
    handlerGetMain c up st prop = some (v, st) := by
  unfold handlerGetMain
  rw [h2]
  simp only [Option.getD_some]
  cases v with
  | str s2 =>
      unfold stringLooksSerialized at h10
      simp only [] at h10 ⊢
      cases hh : s2.head? with
      | none =>
          rw [hh] at h10
          simp only [] at h10
          exact absurd h10 (by simp)
      | some c2 =>
          rw [hh] at h10
          simp only [] at h10 ⊢
          rw [if_neg (by simpa using h10), finishGet_id _ _ hwrap]
  | undef => simp only []; rw [finishGet_id _ _ hwrap]
  | nullv => simp only []; rw [finishGet_id _ _ hwrap]
  | num n => simp only []; rw [finishGet_id _ _ hwrap]
  | bigintv d => simp only []; rw [finishGet_id _ _ hwrap]
  | boolv b => simp only []; rw [finishGet_id _ _ hwrap]
  | obj id => simp only []; rw [finishGet_id _ _ hwrap]

theorem handlerSet_escape (st : HState) (prop : String) (s : JStr) (c0 : Nat)
    (h2 : s.head? = some c0) (h3 : c0 < 32) :
    handlerSet st prop (MVal.str s)
      = { st with props := assocSet st.props prop (MVal.str (5 :: s)) } := by
  unfold handlerSet
  simp only []
  rw [h2]
  simp only []
  rw [if_pos h3]

theorem scanSet_spec (s1 : WalkSt) (o : Nat) (es : List WVal)
    (hfresh : assocGet s1.ctx.map (WVal.obj s1.fresh) = none) (hnd : es.Nodup) :
    (scanSet s1 o es).sideIds o = some (s1.ctx.roots.length : Int) ∧
    rootsGet (scanSet s1 o es).ctx (s1.ctx.roots.length : Int)
      = some (WVal.obj s1.fresh) ∧
    (scanSet s1 o es).heap s1.fresh = WObj.arr es ∧
    writeSetValue (scanSet s1 o es).sideIds o
      = some (26 :: intToDigits (s1.ctx.roots.length : Int)) ∧
    inflateSet (getRootArr (scanSet s1 o es))
      (26 :: intToDigits (s1.ctx.roots.length : Int)) = some es := by
  have hadd := addRoot_unseen s1.ctx (WVal.obj s1.fresh) hfresh
  have h1 : (scanSet s1 o es).sideIds o = some (s1.ctx.roots.length : Int) := by
    show (if o = o then some (addRoot s1.ctx (WVal.obj s1.fresh)).1 else s1.sideIds o) = _
    rw [if_pos rfl, hadd]
  have h2 : rootsGet (scanSet s1 o es).ctx (s1.ctx.roots.length : Int)
      = some (WVal.obj s1.fresh) := by
    show rootsGet (addRoot s1.ctx (WVal.obj s1.fresh)).2 _ = _
    rw [hadd]
    unfold rootsGet
    rw [if_pos (Int.natCast_nonneg _)]
    simp only [Int.toNat_natCast]
    exact list_get_concat_length _ _
  have h3 : (scanSet s1 o es).heap s1.fresh = WObj.arr es := by
    show (if s1.fresh = s1.fresh then WObj.arr es else s1.heap s1.fresh) = _
    rw [if_pos rfl]
  refine ⟨h1, h2, h3, ?_, ?_⟩
  · unfold writeSetValue
    rw [h1]
    rfl
  · unfold inflateSet
    simp only [List.tail_cons]
    rw [parse_roundTrip]
    unfold getRootArr
    rw [h2]
    simp only []
    rw [h3]
    simp only [Option.map_some']
    rw [foldl_jsSetAdd es [] hnd (by simp)]
    simp

theorem scanMap_spec (s1 : WalkSt) (o : Nat) (entries : List (WVal × WVal))
    (hfresh : assocGet s1.ctx.map (WVal.obj s1.fresh) = none)
    (hnd : (entries.map Prod.fst).Nodup) :
    (scanMap s1 o entries).sideIds o = some (s1.ctx.roots.length : Int) ∧
    rootsGet (scanMap s1 o entries).ctx (s1.ctx.roots.length : Int)
      = some (WVal.obj s1.fresh) ∧
    (scanMap s1 o entries).heap s1.fresh = WObj.arr (flattenPairs entries) ∧
    writeMapValue (scanMap s1 o entries).sideIds o
      = some (27 :: intToDigits (s1.ctx.roots.length : Int)) ∧
    inflateMap (getRootArr (scanMap s1 o entries))
      (27 :: intToDigits (s1.ctx.roots.length : Int)) = some entries := by
  have hadd := addRoot_unseen s1.ctx (WVal.obj s1.fresh) hfresh
  have h1 : (scanMap s1 o entries).sideIds o = some (s1.ctx.roots.length : Int) := by
    show (if o = o then some (addRoot s1.ctx (WVal.obj s1.fresh)).1 else s1.sideIds o) = _
    rw [if_pos rfl, hadd]
  have h2 : rootsGet (scanMap s1 o entries).ctx (s1.ctx.roots.length : Int)
      = some (WVal.obj s1.fresh) := by
    show rootsGet (addRoot s1.ctx (WVal.obj s1.fresh)).2 _ = _
    rw [hadd]
    unfold rootsGet
    rw [if_pos (Int.natCast_nonneg _)]
    simp only [Int.toNat_natCast]
    exact list_get_concat_length _ _
  have h3 : (scanMap s1 o entries).heap s1.fresh = WObj.arr (flattenPairs entries) := by
    show (if s1.fresh = s1.fresh then WObj.arr (flattenPairs entries)
      else s1.heap s1.fresh) = _
    rw [if_pos rfl]
  refine ⟨h1, h2, h3, ?_, ?_⟩
  · unfold writeMapValue
    rw [h1]
    rfl
  · unfold inflateMap
    simp only [List.tail_cons]
    rw [parse_roundTrip]
    unfold getRootArr
    rw [h2]
    simp only []
    rw [h3]
    simp only [Option.map_some']
    rw [pairUp_flattenPairs, foldl_assocSet entries [] hnd (by simp)]
    simp

/-! ## Claims -/

/-- Claim C1 (code bug): `$getRootId$` is supposed to return the id of every
rooted object and throw only for objects never rooted, but its guard `!id`
treats the number 0 as missing.  Fresh context, promote one object: it gets
root id 0, `$hasRootId$` reports 0, yet `$getRootId$` throws (`none`) — while
a second promoted object (id 1) resolves fine and a never-rooted object throws
as documented. -/
theorem c1_getRootId_throws_on_root_id_zero :
    (addRoot emptyCtx (WVal.obj 7)).1 = 0 ∧
    hasRootId (addRoot emptyCtx (WVal.obj 7)).2 (WVal.obj 7) = some 0 ∧
    getRootId (addRoot emptyCtx (WVal.obj 7)).2 (WVal.obj 7) = none ∧
    getRootId (addRoot (addRoot emptyCtx (WVal.obj 7)).2 (WVal.obj 8)).2 (WVal.obj 8)
      = some 1 ∧
    getRootId (addRoot emptyCtx (WVal.obj 7)).2 (WVal.obj 9) = none := by
  decide

/-- Claim C2: for every control-range character `C` (code below
`LAST_VALUE = 0x20`), the encoder writes the string `C + "x"` with the
string-escape tag prefixed, and `allocate` on the tagged payload (first char
code `String_VALUE`) returns exactly `C + "x"`, never a value interpreted
under tag `C`. -/
theorem c2_control_string_escape_roundtrip (h : JStr → Option Int) (d : Int)
    (w : WrapState) (cc : Nat) (hc : cc < 32) :
    writeValueScalar h d (SVal.strv [cc, 120]) = WireOut.tagged (5 :: [cc, 120]) ∧
    allocate w (5 :: [cc, 120]) = some (MVal.str [cc, 120], w) := by
  constructor
  · unfold writeValueScalar
    simp only [List.length_cons, List.length_nil, List.head?_cons]
    rw [if_neg (by simp)]
    simp only []
    rw [if_pos hc]
  · rfl

theorem c2_witness :
    (0 : Nat) < 32 ∧
    (writeValueScalar (fun _ => none) 0 (SVal.strv [0, 120])
        = WireOut.tagged (5 :: [0, 120]) ∧
      allocate w0 (5 :: [0, 120]) = some (MVal.str [0, 120], w0)) :=
  ⟨by decide, c2_control_string_escape_roundtrip (fun _ => none) 0 w0 0 (by decide)⟩

/-- Claim C7: `NaN` and the signed infinities are encoded with the not-finite
tag plus a sign suffix and decode back to exactly themselves, and every finite
number is written in its default decimal text form. -/
theorem c7_notfinite_roundtrip (h : JStr → Option Int) (d : Int) (w : WrapState)
    (r : JStr) :
    (writeValueScalar h d (SVal.num JSNum.nan) = WireOut.tagged [7] ∧
      allocate w [7] = some (MVal.num JSNum.nan, w)) ∧
    (writeValueScalar h d (SVal.num JSNum.inf) = WireOut.tagged [7, 43] ∧
      allocate w [7, 43] = some (MVal.num JSNum.inf, w)) ∧
    (writeValueScalar h d (SVal.num JSNum.negInf) = WireOut.tagged [7, 45] ∧
      allocate w [7, 45] = some (MVal.num JSNum.negInf, w)) ∧
    writeValueScalar h d (SVal.num (JSNum.fin r)) = WireOut.raw r :=
  ⟨⟨rfl, rfl⟩, ⟨rfl, rfl⟩, ⟨rfl, rfl⟩, rfl⟩

/-- Claim C4: root ids are assigned monotonically (a fresh promotion receives
the current root-list length), never reused or reassigned by `$addRoot$`, and
repeated `$addRoot$` on the same object returns the same id with the context
unchanged. -/
theorem c4_root_ids_monotone_stable (c : SerCtx) (v w : WVal) (i : Int)
    (hInv : ctxInv c = true)
    (hw : assocGet c.map w = some i) (hi : i ≠ minSafeInteger) :
    c4Concl c v w i := by
  refine ⟨?_, ?_, addRoot_idem c v, ?_⟩
  · intro hnew
    unfold addRoot
    rcases hnew with hnew | hnew <;> rw [hnew] <;> exact ⟨rfl, rfl⟩
  · unfold addRoot
    cases hm : assocGet c.map v with
    | none =>
        have hvw : v ≠ w := by
          intro hEq; rw [hEq, hw] at hm; exact Option.noConfusion hm
        simp only []
        rw [assocGet_assocSet_ne _ _ _ _ hvw]
        exact hw
    | some id =>
        by_cases hid : id = minSafeInteger
        · have hvw : v ≠ w := by
            intro hEq
            rw [hEq, hw] at hm
            injection hm with hm
            exact hi (by rw [hm, hid])
          simp only []
          rw [if_pos hid]
          simp only []
          rw [assocGet_assocSet_ne _ _ _ _ hvw]
          exact hw
        · simp only []
          rw [if_neg hid]
          exact hw
  · intro u hu
    have h1 := ctxInv_lookup c u i hInv hu hi
    have h2 := ctxInv_lookup c w i hInv hw hi
    rw [h1] at h2
    exact Option.some.inj h2

theorem c4_witness :
    (ctxInv ctx4 = true ∧ assocGet ctx4.map (WVal.obj 1) = some 0 ∧
      (0 : Int) ≠ minSafeInteger) ∧
    c4Concl ctx4 (WVal.obj 2) (WVal.obj 1) 0 :=
  ⟨by decide,
    c4_root_ids_monotone_stable ctx4 (WVal.obj 2) (WVal.obj 1) 0
      (by decide) (by decide) (by decide)⟩

/-- Claim C6: a pending promise that resolves stores the root id of the
resolved value on the promise (non-negative), so the promise encodes to the
Promise tag plus that id and decoding resolves the reconstructed promise with
the value at that id; a rejection stores the bit-complement of a newly rooted
error id (negative), and decoding rejects the reconstructed promise with the
object at root id `~id`. -/
theorem c6_promise_settlement_roundtrip (s : WalkSt) (p : Nat) (v e : WVal)
    (hInv : ctxInv s.ctx = true) :
    c6ResolveConcl s p v ∧ c6RejectConcl s p e := by
  obtain ⟨hres0, hresv⟩ := addRoot_resolves s.ctx v hInv
  obtain ⟨hrej0, hreje⟩ := addRoot_resolves s.ctx e hInv
  constructor
  · refine ⟨?_, hres0, ?_, ?_⟩
    · show (if p = p then some (addRoot s.ctx v).1 else s.sideIds p) = _
      rw [if_pos rfl]
    · unfold writePromiseValue
      show ((if p = p then some (addRoot s.ctx v).1 else s.sideIds p).map
        fun id => 28 :: intToDigits id) = _
      rw [if_pos rfl]
      rfl
    · unfold inflatePromise
      simp only [List.tail_cons]
      rw [parse_roundTrip, if_pos hres0]
      show PromiseOutcome.resolvedWith
        (rootsGet (addRoot s.ctx v).2 (addRoot s.ctx v).1) = _
      rw [hresv]
  · have hneg : jsBitNot (addRoot s.ctx e).1 < 0 := by unfold jsBitNot; omega
    refine ⟨?_, hneg, ?_, ?_⟩
    · show (if p = p then some (jsBitNot (addRoot s.ctx e).1) else s.sideIds p) = _
      rw [if_pos rfl]
    · unfold writePromiseValue
      show ((if p = p then some (jsBitNot (addRoot s.ctx e).1) else s.sideIds p).map
        fun id => 28 :: intToDigits id) = _
      rw [if_pos rfl]
      rfl
    · unfold inflatePromise
      simp only [List.tail_cons]
      rw [parse_roundTrip, if_neg (by omega), jsBitNot_jsBitNot]
      show PromiseOutcome.rejectedWith
        (rootsGet (addRoot s.ctx e).2 (addRoot s.ctx e).1) = _
      rw [hreje]

theorem c6_witness :
    ctxInv stProm.ctx = true ∧
    c6ResolveConcl stProm 3 (WVal.numv 42) ∧ c6RejectConcl stProm 3 (WVal.strv [101]) :=
  ⟨by decide,
    c6_promise_settlement_roundtrip stProm 3 (WVal.numv 42) (WVal.strv [101]) (by decide)⟩

/-- Claim C10: `wrapDeserializerProxy` is idempotent and identity-caching —
wrapping the same eligible target twice returns the identical proxy (and
leaves the state unchanged the second time), wrapping a value that is already
a deserializer proxy returns it unchanged, and every non-eligible value
(null, undefined, strings, numbers, VNodes, non-literal objects) is returned
unchanged. -/
theorem c10_wrap_idempotent_caching (w : WrapState) (t q u t' : Nat)
    (ht : w.kind t = ObjKind.literal ∨ w.kind t = ObjKind.arr)
    (hf : t ≠ w.fresh)
    (hwf : ∀ a b, w.proxyOf a = some b → w.kind b = ObjKind.proxy a)
    (hq : w.kind q = ObjKind.proxy t')
    (hu : w.kind u = ObjKind.vnode ∨ w.kind u = ObjKind.other) :
    c10Concl w t q u := by
  have hq' := wrap_proxyK w q t' hq
  have hu' : wrapDeserializerProxy w (MVal.obj u) = (MVal.obj u, w) := by
    rcases hu with hu | hu
    · exact wrap_vnode w u hu
    · exact wrap_other w u hu
  cases hp : w.proxyOf t with
  | some p0 =>
      have h1 := wrap_eligible_cached w t p0 ht hp
      have hkp0 := hwf t p0 hp
      refine ⟨?_, ?_, hq', hu', rfl, rfl, fun sx => rfl, fun n => rfl⟩
      · rw [h1]
        exact h1
      · rw [h1]
        exact wrap_proxyK w p0 t hkp0
  | none =>
      have h1 := wrap_eligible_fresh w t ht hp
      have hk2 : (proxyCreate w t).kind t = w.kind t := by
        show (if t = w.fresh then ObjKind.proxy t else w.kind t) = w.kind t
        rw [if_neg hf]
      have hp2 : (proxyCreate w t).proxyOf t = some w.fresh := by
        show (if t = t then some w.fresh else w.proxyOf t) = some w.fresh
        rw [if_pos rfl]
      have hkt2 : (proxyCreate w t).kind t = ObjKind.literal ∨
          (proxyCreate w t).kind t = ObjKind.arr := by
        rw [hk2]; exact ht
      have h2 := wrap_eligible_cached (proxyCreate w t) t w.fresh hkt2 hp2
      have hkfresh : (proxyCreate w t).kind w.fresh = ObjKind.proxy t := by
        show (if w.fresh = w.fresh then ObjKind.proxy t else w.kind w.fresh) = _
        rw [if_pos rfl]
      refine ⟨?_, ?_, hq', hu', rfl, rfl, fun sx => rfl, fun n => rfl⟩
      · rw [h1]
        exact h2
      · rw [h1]
        exact wrap_proxyK (proxyCreate w t) w.fresh t hkfresh

theorem c10_witness :
    ((wW.kind 0 = ObjKind.literal ∨ wW.kind 0 = ObjKind.arr) ∧
      (0 : Nat) ≠ wW.fresh ∧
      (∀ a b, wW.proxyOf a = some b → wW.kind b = ObjKind.proxy a) ∧
      wW.kind 1 = ObjKind.proxy 5 ∧
      (wW.kind 2 = ObjKind.vnode ∨ wW.kind 2 = ObjKind.other)) ∧
    c10Concl wW 0 1 2 :=
  ⟨⟨Or.inl rfl, by decide, fun a b h => Option.noConfusion h, rfl, Or.inl rfl⟩,
    c10_wrap_idempotent_caching wW 0 1 2 5 (Or.inl rfl) (by decide)
      (fun a b h => Option.noConfusion h) rfl (Or.inl rfl)⟩

/-- Claim C3: a lazily-wrapped property holding a tagged serialized string that
materializes (via `allocate`) to a cacheable value is materialized on first
read, written back into the target, and a second read through the handler
returns the identical value with the identical state; inflation runs at most
once.  The Reference, VNode, Store and DerivedSignal tags take their own
special-cased paths and are excluded by hypothesis, matching the claim's
"allocate on the payload" scope. -/
theorem c3_lazy_read_idempotent (c : Container)
    (up : HState → String → MVal × HState) (st : HState) (prop : String)
    (s : JStr) (tc : Nat) (v : MVal)
    (h1 : st.storeTarget = none)
    (h2 : assocGet st.props prop = some (MVal.str s))
    (h3 : s.head? = some tc) (h4 : tc < 32)
    (h5 : tc ≠ 1) (h6 : tc ≠ 6) (h7 : tc ≠ 20) (h8 : tc ≠ 23)
    (h9 : (allocate st.wst s).map Prod.fst = some v)
    (h10 : stringLooksSerialized v = false) :
    c3Concl c up st prop s := by
  obtain ⟨vw, halloc⟩ : ∃ vw, allocate st.wst s = some vw := by
    cases ha : allocate st.wst s with
    | none => rw [ha] at h9; exact Option.noConfusion h9
    | some vw => exact ⟨vw, rfl⟩
  have hv1 : vw.1 = v := by
    rw [halloc] at h9
    exact Option.some.inj h9
  subst hv1
  have hwrapC :
      wrapDeserializerProxy (cacheStep { st with wst := vw.2 } prop tc s vw.1).wst vw.1
        = (vw.1, (cacheStep { st with wst := vw.2 } prop tc s vw.1).wst) := by
    rw [cacheStep_wst]
    exact allocate_wrap_id st.wst s vw halloc
  have hfirst : handlerGet c up st prop
      = some (vw.1, cacheStep { st with wst := vw.2 } prop tc s vw.1) := by
    rw [handlerGet_noStore c up st prop h1,
      handlerGetMain_tagged c up st prop s tc h2 h3 h4 h7,
      tagDispatch_allocate c st s tc h5 h6 h8, halloc]
    simp only [Option.map_some']
    rw [finishGet_id _ _ hwrapC]
  have hcached :
      assocGet (cacheStep { st with wst := vw.2 } prop tc s vw.1).props prop
        = some vw.1 := by
    rw [cacheStep_props _ _ _ _ _ h10]
    exact assocGet_assocSet_self _ _ _
  have hsecond : handlerGet c up (cacheStep { st with wst := vw.2 } prop tc s vw.1) prop
      = some (vw.1, cacheStep { st with wst := vw.2 } prop tc s vw.1) := by
    rw [handlerGet_noStore c up _ prop (by rw [cacheStep_storeTarget]; exact h1)]
    exact handlerGetMain_materialized c up _ prop vw.1 hcached h10 hwrapC
  exact ⟨vw.1, cacheStep { st with wst := vw.2 } prop tc s vw.1,
    by rw [halloc]; rfl, hfirst, hcached, hsecond, cacheStep_log_len _ _ _ _ _⟩

theorem c3_witness :
    (hst0.storeTarget = none ∧
      assocGet hst0.props "a" = some (MVal.str [26, 48]) ∧
      ([26, 48] : JStr).head? = some 26 ∧ (26 : Nat) < 32 ∧
      (26 : Nat) ≠ 1 ∧ (26 : Nat) ≠ 6 ∧ (26 : Nat) ≠ 20 ∧ (26 : Nat) ≠ 23 ∧
      (allocate hst0.wst [26, 48]).map Prod.fst = some (MVal.obj 0) ∧
      stringLooksSerialized (MVal.obj 0) = false) ∧
    c3Concl container0 upgrade0 hst0 "a" [26, 48] :=
  ⟨⟨rfl, rfl, rfl, by decide, by decide, by decide, by decide, by decide, rfl, rfl⟩,
    c3_lazy_read_idempotent container0 upgrade0 hst0 "a" [26, 48] 26 (MVal.obj 0)
      rfl rfl rfl (by decide) (by decide) (by decide) (by decide) (by decide) rfl rfl⟩

/-- Claim C8: setting a string whose first character's code is in the control
range through the lazy wrapper stores it with the string-escape prefix applied,
and a subsequent read through the wrapper strips the escape again and returns
exactly the original string. -/
theorem c8_escaped_write_read_roundtrip (c : Container)
    (up : HState → String → MVal × HState) (st : HState) (prop : String)
    (s : JStr) (c0 : Nat)
    (h1 : st.storeTarget = none)
    (h2 : s.head? = some c0) (h3 : c0 < 32) :
    assocGet (handlerSet st prop (MVal.str s)).props prop
      = some (MVal.str (5 :: s)) ∧
    handlerGet c up (handlerSet st prop (MVal.str s)) prop
      = some (MVal.str s, handlerSet st prop (MVal.str s)) := by
  rw [handlerSet_escape st prop s c0 h2 h3]
  refine ⟨assocGet_assocSet_self _ _ _, ?_⟩
  have h2' : assocGet (assocSet st.props prop (MVal.str (5 :: s))) prop
      = some (MVal.str (5 :: s)) := assocGet_assocSet_self _ _ _
  have hlooks : stringLooksSerialized (MVal.str s) = true := by
    unfold stringLooksSerialized
    simp only []
    rw [h2]
    simp only []
    exact decide_eq_true h3
  rw [handlerGet_noStore c up
      { st with props := assocSet st.props prop (MVal.str (5 :: s)) } prop h1,
    handlerGetMain_tagged c up
      { st with props := assocSet st.props prop (MVal.str (5 :: s)) } prop
      (5 :: s) 5 h2' rfl (by omega) (by omega),
    tagDispatch_allocate c
      { st with props := assocSet st.props prop (MVal.str (5 :: s)) }
      (5 :: s) 5 (by omega) (by omega) (by omega)]
  rw [show allocate
      ({ st with props := assocSet st.props prop (MVal.str (5 :: s)) } : HState).wst
      (5 :: s)
    = some (MVal.str s,
      ({ st with props := assocSet st.props prop (MVal.str (5 :: s)) } : HState).wst)
    from rfl]
  simp only [Option.map_some']
  rw [cacheStep_skip _ _ _ _ _ hlooks, finishGet_id _ _ rfl]

theorem c8_witness :
    (hset0.storeTarget = none ∧ ([0, 104] : JStr).head? = some 0 ∧ (0 : Nat) < 32) ∧
    (assocGet (handlerSet hset0 "b" (MVal.str [0, 104])).props "b"
        = some (MVal.str (5 :: [0, 104])) ∧
      handlerGet container0 upgrade0 (handlerSet hset0 "b" (MVal.str [0, 104])) "b"
        = some (MVal.str [0, 104], handlerSet hset0 "b" (MVal.str [0, 104]))) :=
  ⟨⟨rfl, rfl, by decide⟩,
    c8_escaped_write_read_roundtrip container0 upgrade0 hset0 "b" [0, 104] 0
      rfl rfl (by decide)⟩

/-- Claim C5, counterexample: a reactive-store wrapper is a trackable non-root
object, yet its first visit does not move it from unseen to seen-once — the
walker pushes the unwrapped target instead and leaves the seen map untouched,
so the claim's universal seen-state machine does not cover store wrappers. -/
theorem c5_counterexample_store_bypasses_seen_state :
    shouldTrackObj (WVal.obj 0) = true ∧
    (walkStep (WVal.obj 9) stStore).map
        (fun s' => (wasSeen s'.ctx (WVal.obj 0), s'.stack, s'.ctx.roots))
      = some (none, [WVal.obj 1], []) ∧
    (walkStep (WVal.obj 9) stStore).map (fun s' => wasSeen s'.ctx (WVal.obj 0))
      ≠ some (some minSafeInteger) :=
  ⟨rfl, rfl, by decide⟩

/-- Claim C5 (amended: restricted to objects that are not reactive-store
wrappers, which the walker handles by pushing their unwrapped target without
seen-marking): on first visit an unseen non-root object moves to seen-once
and its children are pushed; on second visit it is promoted to a root without
re-traversing its children; and a declared root is scanned in full on its own
walk even when already marked seen-once. -/
theorem c5_seen_state_machine_nonstore
    (r : WVal)
    (a : WalkSt) (ao : Nat) (aprops : List (String × WVal)) (astk : List WVal)
    (ha1 : a.stack = WVal.obj ao :: astk) (ha2 : a.heap ao = WObj.literal aprops)
    (ha3 : WVal.obj ao ≠ r) (ha4 : wasSeen a.ctx (WVal.obj ao) = none)
    (b : WalkSt) (bo : Nat) (bstk : List WVal)
    (hb1 : b.stack = WVal.obj bo :: bstk) (hb2 : isStoreK (b.heap bo) = false)
    (hb3 : WVal.obj bo ≠ r) (hb4 : wasSeen b.ctx (WVal.obj bo) = some minSafeInteger)
    (cc : WalkSt) (co : Nat) (cprops : List (String × WVal)) (cstk : List WVal)
    (hc1 : cc.stack = WVal.obj co :: cstk) (hc2 : cc.heap co = WObj.literal cprops)
    (_hc4 : wasSeen cc.ctx (WVal.obj co) = some minSafeInteger) :
    c5FirstVisit r a ao aprops astk ∧ c5SecondVisit r b bo bstk ∧
      c5RootVisit cc co cprops cstk := by
  refine ⟨?_, ?_, ?_⟩
  · have hstep := walkStep_cons r a (WVal.obj ao) astk ha1 rfl
    have hns : isStoreK (({ a with stack := astk } : WalkSt).heap ao) = false := by
      rw [show ({ a with stack := astk } : WalkSt).heap ao
        = WObj.literal aprops from ha2]
      rfl
    have hv := walkVisit_unseen r { a with stack := astk } (WVal.obj ao)
      (unwrapProxyW_nonstore _ ao hns) ha3 ha4
    have hsc := scanContents_literal
      { ({ a with stack := astk } : WalkSt) with
        ctx := seen ({ a with stack := astk } : WalkSt).ctx (WVal.obj ao) }
      ao aprops ha2
    refine ⟨_, hstep.trans (hv.trans hsc), ?_, rfl, rfl⟩
    exact assocGet_assocSet_self _ _ _
  · have hstep := walkStep_cons r b (WVal.obj bo) bstk hb1 rfl
    have hns : isStoreK (({ b with stack := bstk } : WalkSt).heap bo) = false := hb2
    have hv := walkVisit_seen_once r { b with stack := bstk } (WVal.obj bo)
      (unwrapProxyW_nonstore _ bo hns) hb3 hb4
    have hpro := addRoot_seen_once b.ctx (WVal.obj bo) hb4
    refine ⟨_, hstep.trans hv, rfl, ?_, ?_, rfl, rfl, rfl⟩
    · show (addRoot b.ctx (WVal.obj bo)).2.roots = _
      rw [hpro]
    · show wasSeen (addRoot b.ctx (WVal.obj bo)).2 (WVal.obj bo) = _
      rw [hpro]
      exact assocGet_assocSet_self _ _ _
  · have hstep := walkStep_cons (WVal.obj co) cc (WVal.obj co) cstk hc1 rfl
    have hns : isStoreK (({ cc with stack := cstk } : WalkSt).heap co) = false := by
      rw [show ({ cc with stack := cstk } : WalkSt).heap co
        = WObj.literal cprops from hc2]
      rfl
    have hv := walkVisit_root { cc with stack := cstk } (WVal.obj co)
      (unwrapProxyW_nonstore _ co hns)
    have hsc := scanContents_literal { cc with stack := cstk } co cprops hc2
    exact ⟨_, hstep.trans (hv.trans hsc), rfl, rfl⟩

theorem c5_witness :
    (stA.stack = WVal.obj 0 :: [] ∧
      stA.heap 0 = WObj.literal [("x", WVal.numv 1), ("y", WVal.strv [104])] ∧
      WVal.obj 0 ≠ WVal.obj 9 ∧ wasSeen stA.ctx (WVal.obj 0) = none ∧
      stB.stack = WVal.obj 0 :: [] ∧ isStoreK (stB.heap 0) = false ∧
      wasSeen stB.ctx (WVal.obj 0) = some minSafeInteger) ∧
    c5FirstVisit (WVal.obj 9) stA 0 [("x", WVal.numv 1), ("y", WVal.strv [104])] [] ∧
    c5SecondVisit (WVal.obj 9) stB 0 [] ∧
    c5RootVisit stB 0 [("x", WVal.numv 1), ("y", WVal.strv [104])] [] :=
  ⟨⟨rfl, rfl, by decide, rfl, rfl, rfl, by decide⟩,
    c5_seen_state_machine_nonstore (WVal.obj 9)
      stA 0 [("x", WVal.numv 1), ("y", WVal.strv [104])] [] rfl rfl (by decide) rfl
      stB 0 [] rfl rfl (by decide) (by decide)
      stB 0 [("x", WVal.numv 1), ("y", WVal.strv [104])] [] rfl rfl (by decide)⟩

/-- Claim C9: for a Set and a Map reached by the walker, the contents are
recorded as a flattened array root in insertion order, the encoder writes the
Set/Map tag plus that root id, and inflation re-adds the elements (Set) or the
key/value pairs (Map) in the same order, so encode-then-decode preserves
insertion order. -/
theorem c9_set_map_order_roundtrip
    (r : WVal)
    (s : WalkSt) (o : Nat) (es : List WVal) (stk : List WVal)
    (hs1 : s.stack = WVal.obj o :: stk) (hs2 : s.heap o = WObj.setO es)
    (hs3 : WVal.obj o ≠ r) (hs4 : wasSeen s.ctx (WVal.obj o) = none)
    (hs5 : o ≠ s.fresh) (hs6 : assocGet s.ctx.map (WVal.obj s.fresh) = none)
    (hs7 : es.Nodup)
    (t : WalkSt) (p : Nat) (entries : List (WVal × WVal)) (tstk : List WVal)
    (ht1 : t.stack = WVal.obj p :: tstk) (ht2 : t.heap p = WObj.mapO entries)
    (ht3 : WVal.obj p ≠ r) (ht4 : wasSeen t.ctx (WVal.obj p) = none)
    (ht5 : p ≠ t.fresh) (ht6 : assocGet t.ctx.map (WVal.obj t.fresh) = none)
    (ht7 : (entries.map Prod.fst).Nodup) :
    c9SetConcl r s o es ∧ c9MapConcl r t p entries := by
  constructor
  · have hstep := walkStep_cons r s (WVal.obj o) stk hs1 rfl
    have hns : isStoreK (({ s with stack := stk } : WalkSt).heap o) = false := by
      rw [show ({ s with stack := stk } : WalkSt).heap o = WObj.setO es from hs2]
      rfl
    have hv := walkVisit_unseen r { s with stack := stk } (WVal.obj o)
      (unwrapProxyW_nonstore _ o hns) hs3 hs4
    have hsc := scanContents_set
      { ({ s with stack := stk } : WalkSt) with
        ctx := seen ({ s with stack := stk } : WalkSt).ctx (WVal.obj o) }
      o es hs2
    have hfr : assocGet
        (seen ({ s with stack := stk } : WalkSt).ctx (WVal.obj o)).map
        (WVal.obj s.fresh) = none := by
      have hne : WVal.obj o ≠ WVal.obj s.fresh := by
        intro hEq
        exact hs5 (WVal.obj.inj hEq)
      exact (assocGet_assocSet_ne s.ctx.map (WVal.obj o) (WVal.obj s.fresh)
        minSafeInteger hne).trans hs6
    obtain ⟨g1, g2, g3, g4, g5⟩ := scanSet_spec
      { ({ s with stack := stk } : WalkSt) with
        ctx := seen ({ s with stack := stk } : WalkSt).ctx (WVal.obj o) }
      o es hfr hs7
    exact ⟨_, hstep.trans (hv.trans hsc), g1, g2, g3, g4, g5⟩
  · have hstep := walkStep_cons r t (WVal.obj p) tstk ht1 rfl
    have hns : isStoreK (({ t with stack := tstk } : WalkSt).heap p) = false := by
      rw [show ({ t with stack := tstk } : WalkSt).heap p
        = WObj.mapO entries from ht2]
      rfl
    have hv := walkVisit_unseen r { t with stack := tstk } (WVal.obj p)
      (unwrapProxyW_nonstore _ p hns) ht3 ht4
    have hsc := scanContents_map
      { ({ t with stack := tstk } : WalkSt) with
        ctx := seen ({ t with stack := tstk } : WalkSt).ctx (WVal.obj p) }
      p entries ht2
    have hfr : assocGet
        (seen ({ t with stack := tstk } : WalkSt).ctx (WVal.obj p)).map
        (WVal.obj t.fresh) = none := by
      have hne : WVal.obj p ≠ WVal.obj t.fresh := by
        intro hEq
        exact ht5 (WVal.obj.inj hEq)
      exact (assocGet_assocSet_ne t.ctx.map (WVal.obj p) (WVal.obj t.fresh)
        minSafeInteger hne).trans ht6
    obtain ⟨g1, g2, g3, g4, g5⟩ := scanMap_spec
      { ({ t with stack := tstk } : WalkSt) with
        ctx := seen ({ t with stack := tstk } : WalkSt).ctx (WVal.obj p) }
      p entries hfr ht7
    exact ⟨_, hstep.trans (hv.trans hsc), g1, g2, g3, g4, g5⟩

theorem c9_witness :
    (stSet.stack = WVal.obj 0 :: [] ∧
      stSet.heap 0 = WObj.setO [WVal.numv 1, WVal.numv 2] ∧
      WVal.obj 0 ≠ WVal.obj 9 ∧ wasSeen stSet.ctx (WVal.obj 0) = none ∧
      (0 : Nat) ≠ stSet.fresh ∧
      assocGet stSet.ctx.map (WVal.obj stSet.fresh) = none ∧
      ([WVal.numv 1, WVal.numv 2] : List WVal).Nodup ∧
      stMap.stack = WVal.obj 0 :: [] ∧
      stMap.heap 0 = WObj.mapO [(WVal.strv [107], WVal.numv 2)] ∧
      wasSeen stMap.ctx (WVal.obj 0) = none ∧
      (0 : Nat) ≠ stMap.fresh ∧
      assocGet stMap.ctx.map (WVal.obj stMap.fresh) = none ∧
      (([(WVal.strv [107], WVal.numv 2)] : List (WVal × WVal)).map Prod.fst).Nodup) ∧
    c9SetConcl (WVal.obj 9) stSet 0 [WVal.numv 1, WVal.numv 2] ∧
    c9MapConcl (WVal.obj 9) stMap 0 [(WVal.strv [107], WVal.numv 2)] :=
  ⟨⟨rfl, rfl, by decide, rfl, by decide, rfl, by decide, rfl, rfl, rfl, by decide,
      rfl, by decide⟩,
    c9_set_map_order_roundtrip (WVal.obj 9)
      stSet 0 [WVal.numv 1, WVal.numv 2] [] rfl rfl (by decide) rfl (by decide) rfl
        (by decide)
      stMap 0 [(WVal.strv [107], WVal.numv 2)] [] rfl rfl (by decide) rfl (by decide)
        rfl (by decide)⟩

end SharedSerialization
